import Mathlib

/-!
Shallow embedding of the `xml-parse` program (`src/main.rs`).

Strings are modelled as `List Char` (`Str`); Rust `Result<T, String>` becomes
`Except Str T`.  Each definition carries the name of the Rust function it
embeds.  The tokenizer loop (the `while` loop inside `parse_file`), the
attribute-parser loop and the tree-builder loop become explicit recursive
functions over the remaining characters / tokens, with the mutable locals of
the Rust loop passed as arguments.
-/

abbrev Str := List Char

/-- Embeds Rust `char::is_whitespace`: the Unicode White_Space property. -/
def isRustWhitespace (c : Char) : Bool :=
  let n := c.toNat
  (9 ≤ n && n ≤ 13) || n == 32 || n == 0x85 || n == 0xA0 || n == 0x1680 ||
  (0x2000 ≤ n && n ≤ 0x200A) || n == 0x2028 || n == 0x2029 || n == 0x202F ||
  n == 0x205F || n == 0x3000

/-- Embeds Rust `s.trim().is_empty()`: every character is whitespace. -/
def allWhitespace (s : Str) : Bool := s.all isRustWhitespace

/-- The apostrophe character `U+0027`. -/
def apostChar : Char := Char.ofNat 39

/-- Embeds `type Attribute = (String, Option<String>)`. -/
abbrev Attribute := Str × Option Str

/-- Embeds `struct TagToken`. -/
structure TagToken where
  is_closing : Bool
  name : Str
  attributes : List Attribute
deriving DecidableEq, Repr

/-- Embeds `enum Token`. -/
inductive Token where
  | Text : Str → Token
  | Tag : TagToken → Token
deriving DecidableEq, Repr

/-- Embeds `enum Node` and `struct Element` (the element's fields are inlined
into the `Element` constructor: tag name, attributes, children). -/
inductive Node where
  | Text : Str → Node
  | Element : Str → List Attribute → List Node → Node
deriving Repr

/-- Embeds `struct Document`. -/
structure Document where
  prolog : Option (List Attribute)
  children : List Node
deriving Repr

/-- Embeds `parse_text_entity`. -/
def parse_text_entity (input : Str) : Option Str :=
  if input = "lt".data then some "<".data
  else if input = "gt".data then some ">".data
  else if input = "amp".data then some "&".data
  else if input = "apos".data then some [apostChar]
  else if input = "quot".data then some "\"".data
  else none

/-- Embeds the `for` loop of `parse_text`: the arguments are the remaining
characters, `current_entity` and `output`. -/
def parse_text_loop : Str → Option Str → Str → Str
  | [], _, output => output
  | ch :: rest, some entity, output =>
      if ch == ';' || isRustWhitespace ch then
        let expanded :=
          match parse_text_entity entity with
          | some v => output ++ v
          | none => output ++ ['&'] ++ entity ++ [';']
        parse_text_loop rest none
          (if isRustWhitespace ch then expanded ++ [ch] else expanded)
      else
        parse_text_loop rest (some (entity ++ [ch])) output
  | ch :: rest, none, output =>
      if ch == '&' then parse_text_loop rest (some []) output
      else parse_text_loop rest none (output ++ [ch])

/-- Embeds `parse_text`. -/
def parse_text (input : Str) : Str := parse_text_loop input none []

/-- Embeds `parse_tag_attribute_value`. -/
def parse_tag_attribute_value (string : Str) : Except Str Str := .ok string

/-- Embeds the inner `loop` of `parse_tag_attributes` that follows `=`: skip
whitespace and return the first non-whitespace character with the remaining
characters (`none` on end of input).  The remaining characters carry a length
bound used for the termination of `parse_tag_attributes_loop`. -/
def seekQuote : (l : Str) → Option (Char × {r : Str // r.length < l.length})
  | [] => none
  | c :: rest =>
      if isRustWhitespace c then
        match seekQuote rest with
        | none => none
        | some p => some (p.1, ⟨p.2.1, Nat.lt_trans p.2.2 (Nat.lt_succ_self _)⟩)
      else some (c, ⟨rest, Nat.lt_succ_self _⟩)

/-- The error message `Unexpected end of tag. Expected ` + quote alternatives,
from `parse_tag_attributes`. -/
def msgExpectedQuoteEof : Str :=
  "Unexpected end of tag. Expected `".data ++ [apostChar] ++ "` or `\"`".data

/-- Embeds the `while` loop of `parse_tag_attributes` and its end-of-input
epilogue: arguments are the remaining characters, `key_opt`, `value_opt` and
`attrs`. -/
def parse_tag_attributes_loop (string : Str) (key_opt : Option (Bool × Str))
    (value_opt : Option (Char × Str)) (attrs : List Attribute) :
    Except Str (List Attribute) :=
  match string with
  | [] =>
      let attrs :=
        match key_opt with
        | some kp => attrs ++ [(kp.2, none)]
        | none => attrs
      if value_opt.isSome then .error msgExpectedQuoteEof
      else .ok attrs
  | ch :: rest =>
      match key_opt with
      | none =>
          if isRustWhitespace ch then
            parse_tag_attributes_loop rest none value_opt attrs
          else if ch == '=' then
            .error "Unexpected `=`. Expected start of attribute key".data
          else
            parse_tag_attributes_loop rest (some (false, [ch])) value_opt attrs
      | some kp =>
          match value_opt with
          | none =>
              if isRustWhitespace ch then
                parse_tag_attributes_loop rest (some (true, kp.2)) none attrs
              else if kp.1 && ch != '=' then
                parse_tag_attributes_loop rest (some (false, [ch])) none
                  (attrs ++ [(kp.2, none)])
              else if ch != '=' then
                parse_tag_attributes_loop rest (some (kp.1, kp.2 ++ [ch]))
                  none attrs
              else
                match seekQuote rest with
                | none => .error msgExpectedQuoteEof
                | some p =>
                    if p.1 != '"' && p.1 != apostChar then
                      .error ("Unexpected `".data ++ [p.1] ++
                        "`. Expected `".data ++ [apostChar] ++ "` or `\"`".data)
                    else
                      parse_tag_attributes_loop p.2.1 (some (kp.1, kp.2))
                        (some (p.1, [])) attrs
          | some qv =>
              if ch != qv.1 then
                parse_tag_attributes_loop rest (some (kp.1, kp.2))
                  (some (qv.1, qv.2 ++ [ch])) attrs
              else
                match parse_tag_attribute_value qv.2 with
                | .error e => .error e
                | .ok v =>
                    parse_tag_attributes_loop rest none none
                      (attrs ++ [(kp.2, some v)])
termination_by string.length
decreasing_by
  all_goals simp_wf
  all_goals first
  | omega
  | (have hp := p.2.2; omega)

/-- Embeds `parse_tag_attributes`. -/
def parse_tag_attributes (string : Str) : Except Str (List Attribute) :=
  parse_tag_attributes_loop string none none []

/-- Embeds Rust `token.find(' ')` on a `List Char`. -/
def findSpace : Str → Option Nat
  | [] => none
  | c :: rest => if c == ' ' then some 0 else (findSpace rest).map (· + 1)

/-- First character is whitespace (`token.chars().next().is_some_and(|ch| ch.is_whitespace())`). -/
def headIsRustWhitespace : Str → Bool
  | [] => false
  | c :: _ => isRustWhitespace c

/-- Embeds `parse_tag_token`. -/
def parse_tag_token (token : Str) : Except Str TagToken :=
  if headIsRustWhitespace token then
    .error ("Unexpected whitespace in tag `<".data ++ token ++ ">`".data)
  else
    let is_closing : Bool := token.head? == some '/'
    let token2 := if is_closing then token.tail else token
    if is_closing && headIsRustWhitespace token2 then
      .error ("Unexpected whitespace in tag `</".data ++ token2 ++
        ">`, after backslash".data)
    else
      match findSpace token2 with
      | some index =>
          match parse_tag_attributes (token2.drop index) with
          | .error e => .error e
          | .ok attrs => .ok ⟨is_closing, token2.take index, attrs⟩
      | none => .ok ⟨is_closing, token2, []⟩

/-- Embeds the `while` loop of `parse_file`: arguments are the remaining
characters, `current_token`, `is_tag`, `is_comment` and `tokens`.  It returns
the tokens together with the final `current_token` and `is_tag` (consumed by
the epilogue in `parse_file`).  The Rust lookahead `chars.as_str().starts_with`
inspects the characters after the current one, i.e. `rest`; the skip
`chars.nth(2)` after `-->` drops the three matched characters. -/
def parse_file_loop : Str → Str → Bool → Bool → List Token →
    Except Str (List Token × Str × Bool)
  | [], current_token, is_tag, _is_comment, tokens =>
      .ok (tokens, current_token, is_tag)
  | ch :: rest, current_token, is_tag, is_comment, tokens =>
      if ch == '<' && !is_comment then
        if is_tag then .error "Unexpected `<`".data
        else
          parse_file_loop rest [] true is_comment
            (if !allWhitespace current_token then
              tokens ++ [Token.Text (parse_text current_token)]
            else tokens)
      else if ch == '>' && !is_comment then
        if !is_tag then .error "Unexpected `>`".data
        else if current_token != [] then
          match parse_tag_token current_token with
          | .error e => .error e
          | .ok t =>
              parse_file_loop rest [] false is_comment
                (tokens ++ [Token.Tag t])
        else
          parse_file_loop rest current_token false is_comment tokens
      else
        if List.isPrefixOf "<!--".data rest then
          parse_file_loop rest current_token is_tag true tokens
        else
          match rest with
          | '-' :: '-' :: '>' :: rest2 =>
              parse_file_loop rest2 current_token is_tag false tokens
          | rest3 =>
              if !is_comment then
                parse_file_loop rest3 (current_token ++ [ch]) is_tag is_comment
                  tokens
              else
                parse_file_loop rest3 current_token is_tag is_comment tokens

/-- The error message of the tokenizer's end-of-input check. -/
def msgUnexpectedEof : Str := "Unexpected end of file. Expected `>`".data

/-- Embeds `parse_file`. -/
def parse_file (file : Str) : Except Str (List Token) :=
  match parse_file_loop file [] false false [] with
  | .error e => .error e
  | .ok (tokens, current_token, is_tag) =>
      if !allWhitespace current_token then
        if is_tag then .error msgUnexpectedEof
        else .ok (tokens ++ [Token.Text (parse_text current_token)])
      else .ok tokens

/-- The error message for a mismatched closing tag (`parse_node_tree_part`). -/
def msgMismatchedClose (name current : Str) : Str :=
  "Mismatched closing tag `</".data ++ name ++ ">. Does not match `<".data ++
    current ++ ">`".data

/-- The error message for a closing tag at depth 0 (`parse_node_tree_part`). -/
def msgUnexpectedClose (name : Str) : Str :=
  "Unexpected closing tag `</".data ++ name ++ ">. Expected end of file`".data

/-- Embeds `parse_node_tree_part`.  The Rust version consumes tokens from a
shared iterator; here the unconsumed suffix is returned alongside the nodes
(with a length bound used for termination).  The `nodes` accumulator of the
Rust `while` loop is an explicit argument.  The `none` branch at end of input
with positive depth models the Rust `current_tag_name.unwrap()` panic; it is
unreachable from `parse_node_tree`, which always pairs positive depth with a
`some` tag name. -/
def parse_node_tree_part : (tokens : List Token) → Nat → Option Str →
    List Node →
    Except Str (List Node × {rest : List Token // rest.length ≤ tokens.length})
  | [], depth, current_tag_name, nodes =>
      if depth > 0 then
        match current_tag_name with
        | some current =>
            .error ("Unexpected end of file. Expected closing tag </".data ++
              current ++ ">.".data)
        | none => .error "unwrap of current_tag_name".data
      else .ok (nodes, ⟨[], Nat.le_refl 0⟩)
  | Token.Text text :: rest, depth, current_tag_name, nodes =>
      match parse_node_tree_part rest depth current_tag_name
          (nodes ++ [Node.Text text]) with
      | .error e => .error e
      | .ok p => .ok (p.1, ⟨p.2.1, Nat.le_trans p.2.2 (Nat.le_succ _)⟩)
  | Token.Tag tag :: rest, depth, current_tag_name, nodes =>
      if tag.name = "?xml".data then
        .error "Unexpected XML prolog. Prolog must occur at beginning of file".data
      else if tag.is_closing then
        match current_tag_name with
        | some current =>
            if current ≠ tag.name then
              .error (msgMismatchedClose tag.name current)
            else if depth = 0 then
              .error (msgUnexpectedClose tag.name)
            else
              .ok (nodes, ⟨rest, Nat.le_succ _⟩)
        | none =>
            if depth = 0 then
              .error (msgUnexpectedClose tag.name)
            else
              .ok (nodes, ⟨rest, Nat.le_succ _⟩)
      else if depth == 0 && !nodes.isEmpty then
        .error "Unexpected opening tag. Expected end of file. Only one root node is allowed".data
      else
        match parse_node_tree_part rest (depth + 1) (some tag.name) [] with
        | .error e => .error e
        | .ok p =>
            match parse_node_tree_part p.2.1 depth current_tag_name
                (nodes ++ [Node.Element tag.name tag.attributes p.1]) with
            | .error e => .error e
            | .ok q =>
                .ok (q.1, ⟨q.2.1, by
                  have hp := p.2.2
                  have hq := q.2.2
                  simp only [List.length_cons]
                  omega⟩)
termination_by tokens _ _ _ => tokens.length
decreasing_by
  all_goals simp_wf
  all_goals first
  | omega
  | (have hp := p.2.2; omega)

/-- Embeds the prolog detection of `parse_node_tree`:
`match tokens.first() { Some(Token::Tag(tag)) if tag.name == "?xml" => Some(tag.attributes.clone()), _ => None }`. -/
def prologOf (tokens : List Token) : Option (List Attribute) :=
  match tokens with
  | Token.Tag tag :: _ =>
      if tag.name = "?xml".data then some tag.attributes else none
  | _ => none

/-- Embeds `parse_node_tree`.  Note the shadowing `let prolog := none` just
before the result, mirroring the source. -/
def parse_node_tree (tokens : List Token) : Except Str Document :=
  let prolog : Option (List Attribute) := prologOf tokens
  let tokens2 := if prolog.isSome then tokens.tail else tokens
  match parse_node_tree_part tokens2 0 none [] with
  | .error e => .error e
  | .ok (children, _) =>
      let prolog := none
      .ok ⟨prolog, children⟩

deriving instance DecidableEq for Except

/-- `parse_node_tree_part` with the termination bound on the returned suffix
erased: the interface used by the lemmas below. -/
def parse_node_tree_go (tokens : List Token) (depth : Nat)
    (current_tag_name : Option Str) (nodes : List Node) :
    Except Str (List Node × List Token) :=
  match parse_node_tree_part tokens depth current_tag_name nodes with
  | .error e => .error e
  | .ok p => .ok (p.1, p.2.1)

theorem parse_node_tree_go_nil (d : Nat) (ctn : Option Str) (n : List Node) :
    parse_node_tree_go [] d ctn n =
      if d > 0 then
        match ctn with
        | some current =>
            .error ("Unexpected end of file. Expected closing tag </".data ++
              current ++ ">.".data)
        | none => .error "unwrap of current_tag_name".data
      else .ok (n, []) := by
  rw [parse_node_tree_go, parse_node_tree_part.eq_def]
  by_cases hd : d > 0
  · simp only [hd, if_true]
    cases ctn <;> rfl
  · simp only [hd, if_false]

theorem parse_node_tree_go_text (t : Str) (rest : List Token) (d : Nat)
    (ctn : Option Str) (n : List Node) :
    parse_node_tree_go (Token.Text t :: rest) d ctn n =
      parse_node_tree_go rest d ctn (n ++ [Node.Text t]) := by
  rw [parse_node_tree_go, parse_node_tree_go, parse_node_tree_part.eq_def]
  dsimp only
  cases h : parse_node_tree_part rest d ctn (n ++ [Node.Text t]) <;> simp [h]

theorem parse_node_tree_go_tag (tag : TagToken) (rest : List Token) (d : Nat)
    (ctn : Option Str) (n : List Node) :
    parse_node_tree_go (Token.Tag tag :: rest) d ctn n =
      if tag.name = "?xml".data then
        .error "Unexpected XML prolog. Prolog must occur at beginning of file".data
      else if tag.is_closing then
        match ctn with
        | some current =>
            if current ≠ tag.name then
              .error (msgMismatchedClose tag.name current)
            else if d = 0 then .error (msgUnexpectedClose tag.name)
            else .ok (n, rest)
        | none =>
            if d = 0 then .error (msgUnexpectedClose tag.name)
            else .ok (n, rest)
      else if d == 0 && !n.isEmpty then
        .error "Unexpected opening tag. Expected end of file. Only one root node is allowed".data
      else
        match parse_node_tree_go rest (d + 1) (some tag.name) [] with
        | .error e => .error e
        | .ok p =>
            parse_node_tree_go p.2 d ctn
              (n ++ [Node.Element tag.name tag.attributes p.1]) := by
  rw [parse_node_tree_go, parse_node_tree_part.eq_def]
  dsimp only
  by_cases h1 : tag.name = "?xml".data
  · simp [h1]
  · by_cases h2 : tag.is_closing
    · cases ctn with
      | some current =>
          by_cases h3 : current = tag.name
          · by_cases h4 : d = 0 <;> simp [h1, h2, h3, h4]
          · simp [h1, h2, h3]
      | none =>
          by_cases h4 : d = 0 <;> simp [h1, h2, h4]
    · by_cases h3 : (d == 0 && !n.isEmpty) = true
      · simp [h1, h2, h3]
      · cases hp : parse_node_tree_part rest (d + 1) (some tag.name) [] with
        | error e => simp [parse_node_tree_go, h1, h2, h3, hp]
        | ok p =>
            cases hq : parse_node_tree_part p.2.1 d ctn
                (n ++ [Node.Element tag.name tag.attributes p.1]) with
            | error e => simp [parse_node_tree_go, h1, h2, h3, hp, hq]
            | ok q => simp [parse_node_tree_go, h1, h2, h3, hp, hq]

theorem parse_node_tree_eq (tokens : List Token) :
    parse_node_tree tokens =
      (match parse_node_tree_go
          (if (prologOf tokens).isSome then tokens.tail else tokens)
          0 none [] with
       | .error e => .error e
       | .ok p => .ok ⟨none, p.1⟩) := by
  unfold parse_node_tree
  cases hp : prologOf tokens with
  | none =>
      dsimp only
      cases h : parse_node_tree_part tokens 0 none [] with
      | error e => simp [parse_node_tree_go, h]
      | ok p => obtain ⟨c, s⟩ := p; simp [parse_node_tree_go, h]
  | some attrs =>
      dsimp only
      cases h : parse_node_tree_part tokens.tail 0 none [] with
      | error e => simp [parse_node_tree_go, h]
      | ok p => obtain ⟨c, s⟩ := p; simp [parse_node_tree_go, h]

set_option maxHeartbeats 4000000 in
/-- Unfolding equation of `parse_tag_attributes_loop` at end of input. -/
theorem parse_tag_attributes_loop_nil (key_opt : Option (Bool × Str))
    (value_opt : Option (Char × Str)) (attrs : List Attribute) :
    parse_tag_attributes_loop [] key_opt value_opt attrs =
      (if value_opt.isSome then .error msgExpectedQuoteEof
       else .ok (match key_opt with
                 | some kp => attrs ++ [(kp.2, none)]
                 | none => attrs)) := by
  conv_lhs => rw [parse_tag_attributes_loop.eq_def]

/-- Unfolding equation of `parse_tag_attributes_loop` with no pending key. -/
theorem parse_tag_attributes_loop_cons_none (ch : Char) (rest : Str)
    (value_opt : Option (Char × Str)) (attrs : List Attribute) :
    parse_tag_attributes_loop (ch :: rest) none value_opt attrs =
      (if isRustWhitespace ch then
        parse_tag_attributes_loop rest none value_opt attrs
      else if ch == '=' then
        .error "Unexpected `=`. Expected start of attribute key".data
      else
        parse_tag_attributes_loop rest (some (false, [ch])) value_opt attrs) := by
  conv_lhs => rw [parse_tag_attributes_loop.eq_def]

/-- Unfolding equation of `parse_tag_attributes_loop` with a pending key. -/
theorem parse_tag_attributes_loop_cons_some (ch : Char) (rest : Str)
    (was_whitespace : Bool) (key : Str) (value_opt : Option (Char × Str))
    (attrs : List Attribute) :
    parse_tag_attributes_loop (ch :: rest) (some (was_whitespace, key))
        value_opt attrs =
      (match value_opt with
       | none =>
          if isRustWhitespace ch then
            parse_tag_attributes_loop rest (some (true, key)) none attrs
          else if was_whitespace && ch != '=' then
            parse_tag_attributes_loop rest (some (false, [ch])) none
              (attrs ++ [(key, none)])
          else if ch != '=' then
            parse_tag_attributes_loop rest (some (was_whitespace, key ++ [ch]))
              none attrs
          else
            match seekQuote rest with
            | none => .error msgExpectedQuoteEof
            | some p =>
                if p.1 != '"' && p.1 != apostChar then
                  .error ("Unexpected `".data ++ [p.1] ++
                    "`. Expected `".data ++ [apostChar] ++ "` or `\"`".data)
                else
                  parse_tag_attributes_loop p.2.1 (some (was_whitespace, key))
                    (some (p.1, [])) attrs
       | some qv =>
          if ch != qv.1 then
            parse_tag_attributes_loop rest (some (was_whitespace, key))
              (some (qv.1, qv.2 ++ [ch])) attrs
          else
            match parse_tag_attribute_value qv.2 with
            | .error e => .error e
            | .ok v =>
                parse_tag_attributes_loop rest none none
                  (attrs ++ [(key, some v)])) := by
  conv_lhs => rw [parse_tag_attributes_loop.eq_def]
  dsimp only
  rfl

/-- C1: evaluation of `parse_node_tree` at a token sequence whose first token
is a `?xml` tag carrying `version="1.0"`.  The returned document's prolog is
`none`: `parse_node_tree` captures the prolog attributes and skips the tag,
but then rebinds `prolog` to `none` just before building the document, so the
captured attribute list never reaches the result. -/
theorem claim_C1 :
    parse_node_tree
        [Token.Tag ⟨false, "?xml".data, [("version".data, some "1.0".data)]⟩] =
      .ok ⟨none, []⟩ := by
  rw [parse_node_tree_eq]
  simp [prologOf, parse_node_tree_go_nil]

/-- C1 (general form): every successful `parse_node_tree` returns a document
whose prolog field is `none`, whatever the tokens were. -/
theorem parse_node_tree_prolog_always_none (tokens : List Token)
    (d : Document) (h : parse_node_tree tokens = .ok d) : d.prolog = none := by
  rw [parse_node_tree_eq] at h
  cases hg : parse_node_tree_go
      (if (prologOf tokens).isSome then tokens.tail else tokens) 0 none [] with
  | error e => rw [hg] at h; exact absurd h (by simp)
  | ok p =>
      rw [hg] at h
      simp only [Except.ok.injEq] at h
      rw [← h]

/-- C2: the tokenizer fails with ``Unexpected `<` `` on
`<r><!-- <fake/> -->x</r>`.  The comment lookahead only runs in the
default character branch and inspects the characters after the current one,
so a `<!--` immediately following `>` never enables comment mode, and the
`<` of `<fake/>` is reached with `is_tag` still true. -/
theorem claim_C2 :
    parse_file "<r><!-- <fake/> -->x</r>".data =
      .error "Unexpected `<`".data := by decide

/-- C3, counterexample: tokenizing `</>` succeeds and produces a closing
`TagToken` whose name is the empty string. -/
theorem claim_C3_counterexample :
    parse_file "</>".data = .ok [Token.Tag ⟨true, [], []⟩] ∧
      (TagToken.mk true [] []).name = [] := by decide


/-- `l.takeWhile` of not-space equals `l.take i` when `findSpace l = some i`,
and the whole of `l` when `findSpace l = none`; dually for drop. -/
theorem findSpace_none_spec (l : Str) (h : findSpace l = none) :
    l.takeWhile (fun c => c != ' ') = l ∧
      l.dropWhile (fun c => c != ' ') = [] := by
  induction l with
  | nil => simp [List.takeWhile, List.dropWhile]
  | cons c rest ih =>
      rw [findSpace] at h
      by_cases hc : c = ' '
      · simp [hc] at h
      · have hb : (c == ' ') = false := by simp [hc]
        simp only [hb, Bool.false_eq_true, if_false] at h
        cases hg : findSpace rest with
        | some j => rw [hg] at h; simp at h
        | none =>
            have := ih hg
            simp [List.takeWhile_cons, List.dropWhile_cons, hb, hc, this.1,
              this.2]

theorem findSpace_some_spec (l : Str) (i : Nat) (h : findSpace l = some i) :
    l.take i = l.takeWhile (fun c => c != ' ') ∧
      l.drop i = l.dropWhile (fun c => c != ' ') := by
  induction l generalizing i with
  | nil => simp [findSpace] at h
  | cons c rest ih =>
      rw [findSpace] at h
      by_cases hc : c = ' '
      · have hb : (c == ' ') = true := by simp [hc]
        simp only [hb, if_true, Option.some.injEq] at h
        subst h
        simp [List.takeWhile_cons, List.dropWhile_cons, hb, hc]
      · have hb : (c == ' ') = false := by simp [hc]
        simp only [hb, Bool.false_eq_true, if_false] at h
        cases hg : findSpace rest with
        | none => rw [hg] at h; simp at h
        | some j =>
            rw [hg] at h
            simp at h
            subst h
            have := ih j hg
            simp [List.takeWhile_cons, List.dropWhile_cons, hb, hc, this.1,
              this.2]

/-- The attribute parser of the empty interior returns no attributes. -/
theorem parse_tag_attributes_nil : parse_tag_attributes [] = .ok [] := by
  rw [parse_tag_attributes, parse_tag_attributes_loop_nil]
  rfl

/-- Structure of every successful `parse_tag_token`: success implies the
interior does not start with whitespace; `is_closing` records a leading `/`;
the name is the rest of the interior (after any leading `/`) up to the first
space character; everything from the first space on is fed to
`parse_tag_attributes`, whose result is the attribute list. -/
theorem parse_tag_token_ok_shape (tok : Str) (t : TagToken)
    (h : parse_tag_token tok = .ok t) :
    headIsRustWhitespace tok = false ∧
    t.is_closing = (tok.head? == some '/') ∧
    t.name = (if tok.head? == some '/' then tok.tail else tok).takeWhile
      (fun c => c != ' ') ∧
    parse_tag_attributes ((if tok.head? == some '/' then tok.tail
      else tok).dropWhile (fun c => c != ' ')) = .ok t.attributes := by
  by_cases hw : headIsRustWhitespace tok
  · rw [parse_tag_token] at h
    simp [hw] at h
  · refine ⟨by simp [hw], ?_⟩
    rw [parse_tag_token] at h
    simp only [hw, Bool.false_eq_true, if_false] at h
    by_cases hs : (tok.head? == some '/') = true
    · simp only [hs, if_true, Bool.true_and] at h
      by_cases hw2 : headIsRustWhitespace tok.tail
      · simp [hw2] at h
      · simp only [hw2, Bool.and_false, Bool.false_eq_true, if_false] at h
        cases hf : findSpace tok.tail with
        | none =>
            simp only [hf, Except.ok.injEq] at h
            obtain ⟨h1, h2⟩ := findSpace_none_spec tok.tail hf
            rw [← h]
            refine ⟨by simp [hs], by simp [hs, h1], ?_⟩
            simp only [hs, if_true, h2]
            exact parse_tag_attributes_nil
        | some i =>
            simp only [hf] at h
            cases ha : parse_tag_attributes (tok.tail.drop i) with
            | error e => rw [ha] at h; simp at h
            | ok attrs =>
                rw [ha] at h
                simp only [Except.ok.injEq] at h
                obtain ⟨h1, h2⟩ := findSpace_some_spec tok.tail i hf
                rw [← h]
                refine ⟨by simp [hs], by simp [hs, h1], ?_⟩
                simp only [hs, if_true, ← h2, ha]
    · have hs2 : (tok.head? == some '/') = false := by
        simp only [Bool.not_eq_true] at hs
        exact hs
      simp only [hs2, Bool.false_and, Bool.false_eq_true, if_false] at h
      cases hf : findSpace tok with
      | none =>
          simp only [hf, Except.ok.injEq] at h
          obtain ⟨h1, h2⟩ := findSpace_none_spec tok hf
          rw [← h]
          refine ⟨by simp [hs2], by simp [hs2, h1], ?_⟩
          simp only [hs2, Bool.false_eq_true, if_false, h2]
          exact parse_tag_attributes_nil
      | some i =>
          simp only [hf] at h
          cases ha : parse_tag_attributes (tok.drop i) with
          | error e => rw [ha] at h; simp at h
          | ok attrs =>
              rw [ha] at h
              simp only [Except.ok.injEq] at h
              obtain ⟨h1, h2⟩ := findSpace_some_spec tok i hf
              rw [← h]
              refine ⟨by simp [hs2], by simp [hs2, h1], ?_⟩
              simp only [hs2, Bool.false_eq_true, if_false, ← h2, ha]

/-- Reduction of the `-->` lookahead match when the remaining characters do
not start with `-->`. -/
theorem match_dash_eq {α : Type} (rest : Str) (f g : Str → α)
    (hshape : ∀ r2, rest ≠ '-' :: '-' :: '>' :: r2) :
    (match rest with
     | '-' :: '-' :: '>' :: rest2 => f rest2
     | rest3 => g rest3) = g rest := by
  split
  · rename_i rest2 hs
    exact absurd rfl (hs rest2)
  · rfl

/-- Unfolding equation of the tokenizer loop at end of input. -/
theorem parse_file_loop_nil (cur : Str) (tg cm : Bool) (toks : List Token) :
    parse_file_loop [] cur tg cm toks = .ok (toks, cur, tg) := rfl

/-- Single-step unfolding equation of the tokenizer loop on one character. -/
theorem parse_file_loop_cons (ch : Char) (rest : Str) (cur : Str)
    (tg cm : Bool) (toks : List Token) :
    parse_file_loop (ch :: rest) cur tg cm toks =
      (if ch == '<' && !cm then
        if tg then .error "Unexpected `<`".data
        else
          parse_file_loop rest [] true cm
            (if !allWhitespace cur then
              toks ++ [Token.Text (parse_text cur)]
            else toks)
      else if ch == '>' && !cm then
        if !tg then .error "Unexpected `>`".data
        else if cur != [] then
          match parse_tag_token cur with
          | .error e => .error e
          | .ok t => parse_file_loop rest [] false cm (toks ++ [Token.Tag t])
        else parse_file_loop rest cur false cm toks
      else if List.isPrefixOf "<!--".data rest then
        parse_file_loop rest cur tg true toks
      else
        match rest with
        | '-' :: '-' :: '>' :: rest2 => parse_file_loop rest2 cur tg false toks
        | rest3 =>
            if !cm then parse_file_loop rest3 (cur ++ [ch]) tg cm toks
            else parse_file_loop rest3 cur tg cm toks) := by
  by_cases hshape : ∃ r2, rest = '-' :: '-' :: '>' :: r2
  · obtain ⟨r2, rfl⟩ := hshape
    rw [parse_file_loop.eq_2]
    rfl
  · rw [parse_file_loop.eq_3 cur tg cm toks ch rest
      (fun r2 h => hshape ⟨r2, h⟩)]
    by_cases h1 : (ch == '<' && !cm) = true
    · simp only [h1, if_true]
    · simp only [h1, Bool.false_eq_true, if_false]
      by_cases h2 : (ch == '>' && !cm) = true
      · simp only [h2, if_true]
      · simp only [h2, Bool.false_eq_true, if_false]
        by_cases h3 : List.isPrefixOf "<!--".data rest = true
        · simp only [h3, if_true]
        · simp only [h3, Bool.false_eq_true, if_false]
          by_cases hcm : (!cm) = true
          · simp only [hcm, if_true]
            split
            · rename_i rest2
              exact absurd ⟨rest2, rfl⟩ hshape
            · simp only [hcm, if_true]
          · simp only [hcm, Bool.false_eq_true, if_false]
            split
            · rename_i rest2
              exact absurd ⟨rest2, rfl⟩ hshape
            · simp only [hcm, Bool.false_eq_true, if_false]

/-- A successful `parse_tag_token` on a non-empty interior that is not a
closing tag has a non-empty name. -/
theorem parse_tag_token_open_name_ne_nil (tok : Str) (t : TagToken)
    (hne : tok ≠ []) (h : parse_tag_token tok = .ok t)
    (hc : t.is_closing = false) : t.name ≠ [] := by
  obtain ⟨hw, hcl, hname, -⟩ := parse_tag_token_ok_shape tok t h
  cases tok with
  | nil => exact absurd rfl hne
  | cons c rest =>
      rw [hcl] at hc
      simp only [List.head?_cons] at hc hname
      simp only [hc, Bool.false_eq_true, if_false] at hname
      have hcs : (c != ' ') = true := by
        simp only [headIsRustWhitespace] at hw
        simp only [bne_iff_ne, ne_eq]
        intro he
        rw [he] at hw
        exact absurd hw (by decide)
      rw [hname, List.takeWhile_cons, if_pos hcs]
      simp

/-- Tag tokens pushed by the tokenizer loop all come from `parse_tag_token`
on a non-empty accumulator, so every non-closing tag token in a successful
run has a non-empty name (provided the initially accumulated tokens do). -/
theorem parse_file_loop_open_tag_names :
    ∀ (l cur : Str) (tg cm : Bool) (toks : List Token)
      (res : List Token × Str × Bool),
      parse_file_loop l cur tg cm toks = .ok res →
      (∀ t, Token.Tag t ∈ toks → t.is_closing = false → t.name ≠ []) →
      ∀ t, Token.Tag t ∈ res.1 → t.is_closing = false → t.name ≠ [] := by
  intro l cur tg cm toks
  induction l, cur, tg, cm, toks using parse_file_loop.induct with
  | case1 cur tg cm toks =>
      intro res h hinv
      rw [parse_file_loop_nil] at h
      simp only [Except.ok.injEq] at h
      rw [← h]
      exact hinv
  | case2 ch rest cur cm toks hlt =>
      intro res h hinv
      rw [parse_file_loop_cons] at h
      simp [hlt] at h
  | case3 ch rest cur tg cm toks hlt htg ih =>
      intro res h hinv
      rw [parse_file_loop_cons] at h
      simp only [hlt, if_true, htg, Bool.false_eq_true, if_false] at h
      refine ih res h ?_
      intro t hmem hcl
      by_cases hws : (!allWhitespace cur) = true
      · simp only [hws, if_true, List.mem_append] at hmem
        rcases hmem with hmem | hmem
        · exact hinv t hmem hcl
        · simp at hmem
      · simp only [hws, if_false, Bool.false_eq_true] at hmem
        exact hinv t hmem hcl
  | case4 ch rest cur tg cm toks hlt hgt htg =>
      intro res h hinv
      rw [parse_file_loop_cons] at h
      simp [hlt, hgt, htg] at h
  | case5 ch rest cur tg cm toks hlt hgt htg hne e herr =>
      intro res h hinv
      rw [parse_file_loop_cons] at h
      simp [hlt, hgt, htg, hne, herr] at h
  | case6 ch rest cur tg cm toks hlt hgt htg hne t htok ih =>
      intro res h hinv
      rw [parse_file_loop_cons] at h
      simp only [hlt, hgt, if_true, htg, hne, Bool.false_eq_true, if_false,
        Bool.not_eq_true, htok] at h
      refine ih res h ?_
      intro t2 hmem hcl
      simp only [List.mem_append, List.mem_singleton, Token.Tag.injEq] at hmem
      rcases hmem with hmem | hmem
      · exact hinv t2 hmem hcl
      · subst hmem
        have hne2 : cur ≠ [] := by simpa using hne
        exact parse_tag_token_open_name_ne_nil cur t2 hne2 htok hcl
  | case7 ch rest cur tg cm toks hlt hgt htg hne ih =>
      intro res h hinv
      rw [parse_file_loop_cons] at h
      simp only [hlt, hgt, if_true, htg, hne, Bool.false_eq_true, if_false,
        Bool.not_eq_true] at h
      exact ih res h hinv
  | case8 ch rest cur tg cm toks hlt hgt hpre ih =>
      intro res h hinv
      rw [parse_file_loop_cons] at h
      simp only [hlt, hgt, hpre, if_true, Bool.false_eq_true, if_false] at h
      exact ih res h hinv
  | case9 ch cur tg cm toks hlt hgt rest2 hpre ih =>
      intro res h hinv
      rw [parse_file_loop_cons] at h
      simp only [hlt, hgt, hpre, Bool.false_eq_true, if_false] at h
      exact ih res h hinv
  | case10 ch cur tg cm toks hlt hgt rest3 hx hcm hpre ih =>
      intro res h hinv
      rw [parse_file_loop_cons] at h
      simp only [hlt, hgt, hpre, Bool.false_eq_true, if_false] at h
      split at h
      · exact ih res h hinv
      · rename_i hcmf
        exact absurd hcm hcmf
  | case11 ch cur tg cm toks hlt hgt rest3 hx hcm hpre ih =>
      intro res h hinv
      rw [parse_file_loop_cons] at h
      simp only [hlt, hgt, hpre, Bool.false_eq_true, if_false] at h
      split at h
      · rename_i hcmt
        exact absurd hcmt hcm
      · exact ih res h hinv

/-- C3 (amended): every TagToken produced by a successful tokenization whose
`is_closing` flag is false has a non-empty name.  (Closing tags may have an
empty name: tokenizing `</>` yields one, see the counterexample.) -/
theorem claim_C3 (s : Str) (tokens : List Token) (t : TagToken)
    (h : parse_file s = .ok tokens) (hmem : Token.Tag t ∈ tokens)
    (hc : t.is_closing = false) : t.name ≠ [] := by
  rw [parse_file] at h
  revert h
  cases hl : parse_file_loop s [] false false [] with
  | error e => intro h; simp at h
  | ok res =>
      intro h
      obtain ⟨toks, cur, tg⟩ := res
      have hbase : ∀ t2, Token.Tag t2 ∈ toks → t2.is_closing = false →
          t2.name ≠ [] := by
        refine parse_file_loop_open_tag_names s [] false false [] (toks, cur, tg)
          hl ?_
        intro t2 hm
        simp at hm
      dsimp only at h
      by_cases hws : (!allWhitespace cur) = true
      · simp only [hws, if_true] at h
        by_cases htg : tg = true
        · simp [htg] at h
        · simp only [htg, Bool.false_eq_true, if_false, Except.ok.injEq] at h
          rw [← h] at hmem
          simp only [List.mem_append, List.mem_singleton] at hmem
          rcases hmem with hmem | hmem
          · exact hbase t hmem hc
          · simp at hmem
      · simp only [hws, Bool.false_eq_true, if_false, Except.ok.injEq] at h
        rw [← h] at hmem
        exact hbase t hmem hc

/-- C3 witness: instantiates the amended claim at the tokenization of `<a>`. -/
theorem claim_C3_witness : ("a".data : Str) ≠ [] :=
  claim_C3 "<a>".data [Token.Tag ⟨false, "a".data, []⟩] ⟨false, "a".data, []⟩
    (by decide) (by decide) rfl

/-- In the no-entity state, characters other than `&` are copied verbatim. -/
theorem parse_text_loop_no_amp (l : Str) (out : Str) (h : '&' ∉ l) :
    parse_text_loop l none out = out ++ l := by
  induction l generalizing out with
  | nil => simp [parse_text_loop]
  | cons c rest ih =>
      have hc : (c == '&') = false := by
        simp only [beq_eq_false_iff_ne, ne_eq]
        intro he
        apply h
        rw [← he]
        exact List.mem_cons_self c rest
      rw [parse_text_loop]
      simp only [hc, Bool.false_eq_true, if_false]
      rw [ih (out ++ [c]) (fun hm => h (List.mem_cons_of_mem c hm))]
      simp

/-- C4, counterexample: the one-character string `&` contains none of the
five recognized entity spellings, yet `parse_text` maps it to the empty
string (the dangling entity capture is discarded), so entity expansion is not
the identity on it. -/
theorem claim_C4_counterexample :
    (¬ ("&lt;".data <:+: ['&']) ∧
     ¬ ("&gt;".data <:+: ['&']) ∧
     ¬ ("&amp;".data <:+: ['&']) ∧
     ¬ (("&apos".data ++ [';']) <:+: ['&']) ∧
     ¬ ("&quot;".data <:+: ['&'])) ∧
    parse_text ['&'] = [] ∧ parse_text ['&'] ≠ ['&'] := by decide

/-- C4 (amended): entity expansion is the identity on every string that
contains no `&` character. -/
theorem claim_C4 (s : Str) (h : '&' ∉ s) : parse_text s = s := by
  rw [parse_text, parse_text_loop_no_amp s [] h]
  simp

/-- C4 witness: instantiates the amended claim at `"hi"`. -/
theorem claim_C4_witness : '&' ∉ "hi".data ∧ parse_text "hi".data = "hi".data :=
  ⟨by decide, claim_C4 "hi".data (by decide)⟩

/-- C5, counterexample: on the tag interior `a<TAB>b` the parser keeps the
tab inside the name (it only splits at a space, U+0020), so the name is not
the maximal prefix up to the first whitespace character. -/
theorem claim_C5_counterexample :
    parse_tag_token ['a', '\t', 'b'] =
      .ok ⟨false, ['a', '\t', 'b'], []⟩ ∧
    (['a', '\t', 'b'] : Str).takeWhile (fun c => !isRustWhitespace c) =
      ['a'] ∧
    (['a', '\t', 'b'] : Str) ≠ ['a'] := by decide

/-- C5 (amended): in `parse_tag_token`, the name is the maximal prefix of the
interior (after any leading `/`) up to the first space character `U+0020` (or
the whole remainder when there is no space), and the remainder from the first
space on is passed to the attribute parser, whose output is the token's
attribute list. -/
theorem claim_C5 (tok : Str) (t : TagToken)
    (h : parse_tag_token tok = .ok t) :
    t.name = (if tok.head? == some '/' then tok.tail else tok).takeWhile
      (fun c => c != ' ') ∧
    parse_tag_attributes ((if tok.head? == some '/' then tok.tail
      else tok).dropWhile (fun c => c != ' ')) = .ok t.attributes := by
  obtain ⟨-, -, hname, hattrs⟩ := parse_tag_token_ok_shape tok t h
  exact ⟨hname, hattrs⟩

/-- C5 witness: instantiates the amended claim at the interior `ab`. -/
theorem claim_C5_witness :
    ("ab".data : Str) = (if ("ab".data : Str).head? == some '/' then
        ("ab".data : Str).tail else "ab".data).takeWhile (fun c => c != ' ') ∧
    parse_tag_attributes ((if ("ab".data : Str).head? == some '/' then
        ("ab".data : Str).tail else "ab".data).dropWhile (fun c => c != ' ')) =
      .ok [] :=
  claim_C5 "ab".data ⟨false, "ab".data, []⟩ (by decide)

/-- C9: in the tree builder a closing tag whose name differs from the
enclosing element's expected name fails with the mismatched-closing-tag
message, at every depth (including 0, so the check precedes the depth-0
check); the message starts with `Mismatched closing tag`; and the full parse
of `<a><b></a></b>` fails with exactly that error. -/
theorem claim_C9 (name cur : Str) (attrs : List Attribute)
    (rest : List Token) (depth : Nat) (nodes : List Node)
    (hxml : name ≠ "?xml".data) (hne : cur ≠ name) :
    parse_node_tree_part (Token.Tag ⟨true, name, attrs⟩ :: rest) depth
        (some cur) nodes = .error (msgMismatchedClose name cur) ∧
    "Mismatched closing tag".data <+: msgMismatchedClose name cur ∧
    parse_file "<a><b></a></b>".data = .ok
      [Token.Tag ⟨false, "a".data, []⟩, Token.Tag ⟨false, "b".data, []⟩,
       Token.Tag ⟨true, "a".data, []⟩, Token.Tag ⟨true, "b".data, []⟩] ∧
    parse_node_tree
      [Token.Tag ⟨false, "a".data, []⟩, Token.Tag ⟨false, "b".data, []⟩,
       Token.Tag ⟨true, "a".data, []⟩, Token.Tag ⟨true, "b".data, []⟩] =
      .error (msgMismatchedClose "a".data "b".data) := by
  refine ⟨?_, ?_, by decide, ?_⟩
  · rw [parse_node_tree_part.eq_def]
    dsimp only
    simp [hxml, hne]
  · have hsplit : msgMismatchedClose name cur =
        "Mismatched closing tag".data ++
          (" `</".data ++ name ++ ">. Does not match `<".data ++ cur ++
            ">`".data) := by
      rw [msgMismatchedClose]
      have : ("Mismatched closing tag `</".data : Str) =
          "Mismatched closing tag".data ++ " `</".data := by decide
      rw [this]
      simp [List.append_assoc]
    rw [hsplit]
    exact List.prefix_append _ _
  · rw [parse_node_tree_eq]
    simp [prologOf, parse_node_tree_go_tag, parse_node_tree_go_text,
      parse_node_tree_go_nil, msgMismatchedClose]

/-- C9 witness: instantiates the claim at the closing tag `</a>` arriving
where `<b>` is open, at depth 0. -/
theorem claim_C9_witness :
    parse_node_tree_part [Token.Tag ⟨true, "a".data, []⟩] 0
        (some "b".data) [] = .error (msgMismatchedClose "a".data "b".data) ∧
    "Mismatched closing tag".data <+: msgMismatchedClose "a".data "b".data :=
  ⟨(claim_C9 "a".data "b".data [] [] 0 [] (by decide) (by decide)).1,
   (claim_C9 "a".data "b".data [] [] 0 [] (by decide) (by decide)).2.1⟩

/-- C8: parsing `<t>5 &lt; 6 &amp; 7 &unknown; end</t>` succeeds; the five
recognized entities expand (`&lt;` to `<`, `&amp;` to `&`) and the
unrecognized `&unknown;` is preserved verbatim, so the sole text child of
element `t` is `5 < 6 & 7 &unknown; end`. -/
theorem claim_C8 :
    parse_file "<t>5 &lt; 6 &amp; 7 &unknown; end</t>".data = .ok
      [Token.Tag ⟨false, "t".data, []⟩,
       Token.Text "5 < 6 & 7 &unknown; end".data,
       Token.Tag ⟨true, "t".data, []⟩] ∧
    parse_node_tree
      [Token.Tag ⟨false, "t".data, []⟩,
       Token.Text "5 < 6 & 7 &unknown; end".data,
       Token.Tag ⟨true, "t".data, []⟩] =
      .ok ⟨none, [Node.Element "t".data []
        [Node.Text "5 < 6 & 7 &unknown; end".data]]⟩ := by
  refine ⟨by decide, ?_⟩
  rw [parse_node_tree_eq]
  simp [prologOf, parse_node_tree_go_tag, parse_node_tree_go_text,
    parse_node_tree_go_nil]

/-- C10: in the attribute state machine, when the pending key has seen
trailing whitespace and a non-`=` non-whitespace character arrives, the key
is emitted as a flag attribute (absent value) and the character starts a
fresh key; consequently the interior of `<t disabled k="v">` parses to the
attributes `[("disabled", None), ("k", Some "v")]` in that order. -/
theorem claim_C10 (c : Char) (rest : Str) (key : Str)
    (attrs : List Attribute) (hws : isRustWhitespace c = false)
    (hne : c ≠ '=') :
    parse_tag_attributes_loop (c :: rest) (some (true, key)) none attrs =
      parse_tag_attributes_loop rest (some (false, [c])) none
        (attrs ++ [(key, none)]) ∧
    parse_tag_token "t disabled k=\"v\"".data =
      .ok ⟨false, "t".data,
        [("disabled".data, none), ("k".data, some "v".data)]⟩ := by
  constructor
  · rw [parse_tag_attributes_loop_cons_some]
    have hbne : (c != '=') = true := by simp [hne]
    simp [hws, hbne]
  · simp [parse_tag_token, parse_tag_attributes, findSpace,
      headIsRustWhitespace, parse_tag_attributes_loop_nil,
      parse_tag_attributes_loop_cons_none, parse_tag_attributes_loop_cons_some,
      seekQuote, parse_tag_attribute_value, isRustWhitespace, apostChar]

/-- C10 witness: instantiates the step at the character `k` arriving after
the flag key `disabled` followed by whitespace. -/
theorem claim_C10_witness :
    parse_tag_attributes_loop ('k' :: "=\"v\"".data)
        (some (true, "disabled".data)) none [] =
      parse_tag_attributes_loop "=\"v\"".data (some (false, ['k'])) none
        [("disabled".data, none)] ∧
    parse_tag_token "t disabled k=\"v\"".data =
      .ok ⟨false, "t".data,
        [("disabled".data, none), ("k".data, some "v".data)]⟩ := by
  have := claim_C10 'k' "=\"v\"".data "disabled".data [] (by decide)
    (by decide)
  simpa using this

/-- A list whose head differs from `a` (in particular when `a` does not occur
in it) does not start with `a :: pre`. -/
theorem not_isPrefixOf_of_not_mem (a : Char) (pre rest : Str)
    (h : a ∉ rest) : List.isPrefixOf (a :: pre) rest = false := by
  cases rest with
  | nil => rfl
  | cons r rs =>
      have hr : (a == r) = false := by
        simp only [beq_eq_false_iff_ne, ne_eq]
        intro he
        apply h
        rw [he]
        exact List.mem_cons_self r rs
      simp [List.isPrefixOf, hr]

/-- On input containing neither `<` nor `>`, the tokenizer loop (entered
outside a tag and outside a comment) just appends every character to the
accumulator and pushes no token. -/
theorem parse_file_loop_benign (l : Str) (cur : Str) (toks : List Token)
    (h1 : '<' ∉ l) (h2 : '>' ∉ l) :
    parse_file_loop l cur false false toks = .ok (toks, cur ++ l, false) := by
  induction l generalizing cur with
  | nil => simp [parse_file_loop_nil]
  | cons c rest ih =>
      have hc1 : (c == '<') = false := by
        simp only [beq_eq_false_iff_ne, ne_eq]
        intro he
        exact h1 (by rw [← he]; exact List.mem_cons_self c rest)
      have hc2 : (c == '>') = false := by
        simp only [beq_eq_false_iff_ne, ne_eq]
        intro he
        exact h2 (by rw [← he]; exact List.mem_cons_self c rest)
      have h1r : '<' ∉ rest := fun hm => h1 (List.mem_cons_of_mem c hm)
      have h2r : '>' ∉ rest := fun hm => h2 (List.mem_cons_of_mem c hm)
      have hpre : List.isPrefixOf "<!--".data rest = false :=
        not_isPrefixOf_of_not_mem '<' _ rest h1r
      rw [parse_file_loop_cons]
      simp only [hc1, hc2, Bool.false_and, Bool.false_eq_true, if_false,
        hpre]
      split
      · rename_i rest2
        simp at h2r
      · simp only [Bool.not_false, if_true]
        rw [ih (cur ++ [c]) h1r h2r]
        simp

/-- C7: on any input free of `<`, `>` and `&`, tokenization succeeds and
yields a single text token equal to the input when it contains any
non-whitespace character, and no tokens when the input is empty or
whitespace-only. -/
theorem claim_C7 (s : Str) (h1 : '<' ∉ s) (h2 : '>' ∉ s) (h3 : '&' ∉ s) :
    parse_file s = .ok (if allWhitespace s then [] else [Token.Text s]) := by
  rw [parse_file, parse_file_loop_benign s [] [] h1 h2]
  dsimp only
  by_cases hws : allWhitespace s = true
  · simp [hws]
  · simp only [List.nil_append, hws, Bool.not_false, if_true,
      Bool.false_eq_true, if_false]
    rw [parse_text, parse_text_loop_no_amp s [] h3]
    simp [hws]

/-- C7 witness: instantiates the claim at the input `hi` (non-whitespace)
— one text token — and relies on `decide` for the hypotheses. -/
theorem claim_C7_witness :
    parse_file "hi ".data =
      .ok (if allWhitespace "hi ".data then [] else
        [Token.Text "hi ".data]) :=
  claim_C7 "hi ".data (by decide) (by decide) (by decide)

/-- Two lists differing on their first twelve elements are different; used to
separate the tokenizer's error messages from the end-of-input message. -/
theorem append_ne_of_take12_ne (pre suf tgt : Str)
    (hlen : 12 ≤ pre.length) (htake : pre.take 12 ≠ tgt.take 12) :
    pre ++ suf ≠ tgt := by
  intro he
  apply htake
  rw [← he, List.take_append_eq_append_take]
  have h0 : 12 - pre.length = 0 := by omega
  simp [h0]

/-- No error raised by the attribute parser is the tokenizer's end-of-input
message. -/
theorem parse_tag_attributes_loop_error_ne :
    ∀ (s : Str) (k : Option (Bool × Str)) (v : Option (Char × Str))
      (a : List Attribute) (e : Str),
      parse_tag_attributes_loop s k v a = .error e →
      e ≠ msgUnexpectedEof := by
  intro s k v a
  induction s, k, v, a using parse_tag_attributes_loop.induct with
  | case1 k v a hv =>
      intro e h
      rw [parse_tag_attributes_loop_nil] at h
      simp only [hv, if_true, Except.error.injEq] at h
      rw [← h]
      decide
  | case2 k v a hv =>
      intro e h
      rw [parse_tag_attributes_loop_nil] at h
      simp [hv] at h
  | case3 v a c rest hw ih =>
      intro e h
      rw [parse_tag_attributes_loop_cons_none] at h
      simp only [hw, if_true] at h
      exact ih e h
  | case4 v a c rest hw heq =>
      intro e h
      rw [parse_tag_attributes_loop_cons_none] at h
      simp only [hw, Bool.false_eq_true, if_false, heq, if_true,
        Except.error.injEq] at h
      rw [← h]
      decide
  | case5 v a c rest hw heq ih =>
      intro e h
      have hbe : (c == '=') = false := by simpa using heq
      rw [parse_tag_attributes_loop_cons_none] at h
      simp only [hw, Bool.false_eq_true, if_false, hbe] at h
      exact ih e h
  | case6 a c rest kp hw ih =>
      intro e h
      rw [parse_tag_attributes_loop_cons_some] at h
      simp only [hw, if_true] at h
      exact ih e h
  | case7 a c rest kp hw hflag ih =>
      intro e h
      rw [parse_tag_attributes_loop_cons_some] at h
      simp only [hw, Bool.false_eq_true, if_false, hflag, if_true] at h
      exact ih e h
  | case8 a c rest kp hw hflag heq ih =>
      intro e h
      have hk : kp.1 = false := by
        simp only [heq, Bool.and_true] at hflag
        simpa using hflag
      rw [parse_tag_attributes_loop_cons_some] at h
      simp only [hw, Bool.false_eq_true, if_false, heq, Bool.and_true, hk,
        if_true] at h
      rw [← hk] at h
      exact ih e h
  | case9 a c rest kp hw hflag heq hseek =>
      intro e h
      have hbf : (c != '=') = false := by simpa using heq
      rw [parse_tag_attributes_loop_cons_some] at h
      simp only [hw, Bool.false_eq_true, if_false, hbf, Bool.and_false,
        hseek, Except.error.injEq] at h
      rw [← h]
      decide
  | case10 a c rest kp hw hflag heq p hseek hq =>
      intro e h
      have hbf : (c != '=') = false := by simpa using heq
      rw [parse_tag_attributes_loop_cons_some] at h
      simp only [hw, Bool.false_eq_true, if_false, hbf, Bool.and_false,
        hseek, hq, if_true, Except.error.injEq] at h
      rw [← h]
      simp only [List.append_assoc]
      apply append_ne_of_take12_ne
      · decide
      · decide
  | case11 a c rest kp hw hflag heq p hseek hq ih =>
      intro e h
      have hbf : (c != '=') = false := by simpa using heq
      have hqf : (p.1 != '"' && p.1 != apostChar) = false := by simpa using hq
      rw [parse_tag_attributes_loop_cons_some] at h
      simp only [hw, Bool.false_eq_true, if_false, hbf, Bool.and_false,
        hseek, hqf] at h
      exact ih e h
  | case12 a c rest kp qv hne ih =>
      intro e h
      rw [parse_tag_attributes_loop_cons_some] at h
      simp only [hne, if_true] at h
      exact ih e h
  | case13 a c rest kp qv hne ev hval =>
      intro e h
      simp [parse_tag_attribute_value] at hval
  | case14 a c rest kp qv hne v hval ih =>
      intro e h
      have hnef : (c != qv.1) = false := by simpa using hne
      rw [parse_tag_attributes_loop_cons_some] at h
      simp only [hnef, Bool.false_eq_true, if_false, hval] at h
      exact ih e h

/-- No error raised by the tag-interior parser is the tokenizer's
end-of-input message. -/
theorem parse_tag_token_error_ne (tok : Str) (e : Str)
    (h : parse_tag_token tok = .error e) : e ≠ msgUnexpectedEof := by
  rw [parse_tag_token] at h
  by_cases hw : headIsRustWhitespace tok
  · simp only [hw, if_true, Except.error.injEq] at h
    rw [← h]
    simp only [List.append_assoc]
    apply append_ne_of_take12_ne
    · decide
    · decide
  · simp only [hw, Bool.false_eq_true, if_false] at h
    by_cases hs : (tok.head? == some '/') = true
    · simp only [hs, Bool.true_and, if_true] at h
      by_cases hw2 : headIsRustWhitespace tok.tail
      · simp only [hw2, if_true, Except.error.injEq] at h
        rw [← h]
        simp only [List.append_assoc]
        apply append_ne_of_take12_ne
        · decide
        · decide
      · simp only [hw2, Bool.false_eq_true, if_false] at h
        revert h
        cases hf : findSpace tok.tail with
        | none => intro h; simp at h
        | some i =>
            cases ha : parse_tag_attributes (tok.tail.drop i) with
            | error e2 =>
                intro h
                dsimp only at h
                rw [ha] at h
                simp only [Except.error.injEq] at h
                rw [← h]
                exact parse_tag_attributes_loop_error_ne _ _ _ _ e2 ha
            | ok attrs => intro h; dsimp only at h; rw [ha] at h; simp at h
    · have hs2 : (tok.head? == some '/') = false := by simpa using hs
      simp only [hs2, Bool.false_and, Bool.false_eq_true, if_false] at h
      revert h
      cases hf : findSpace tok with
      | none => intro h; simp at h
      | some i =>
          cases ha : parse_tag_attributes (tok.drop i) with
          | error e2 =>
              intro h
              dsimp only at h
              rw [ha] at h
              simp only [Except.error.injEq] at h
              rw [← h]
              exact parse_tag_attributes_loop_error_ne _ _ _ _ e2 ha
          | ok attrs => intro h; dsimp only at h; rw [ha] at h; simp at h

/-- No error raised inside the tokenizer loop is the end-of-input message:
that message is produced only by the epilogue of `parse_file`. -/
theorem parse_file_loop_error_ne :
    ∀ (l cur : Str) (tg cm : Bool) (toks : List Token) (e : Str),
      parse_file_loop l cur tg cm toks = .error e →
      e ≠ msgUnexpectedEof := by
  intro l cur tg cm toks
  induction l, cur, tg, cm, toks using parse_file_loop.induct with
  | case1 cur tg cm toks =>
      intro e h
      rw [parse_file_loop_nil] at h
      simp at h
  | case2 ch rest cur cm toks hlt =>
      intro e h
      rw [parse_file_loop_cons] at h
      simp only [hlt, if_true, if_pos rfl, Except.error.injEq] at h
      rw [← h]
      decide
  | case3 ch rest cur tg cm toks hlt htg ih =>
      intro e h
      rw [parse_file_loop_cons] at h
      simp only [hlt, if_true, htg, Bool.false_eq_true, if_false] at h
      exact ih e h
  | case4 ch rest cur tg cm toks hlt hgt htg =>
      intro e h
      rw [parse_file_loop_cons] at h
      simp only [hlt, Bool.false_eq_true, if_false, hgt, if_true, htg,
        Except.error.injEq] at h
      rw [← h]
      decide
  | case5 ch rest cur tg cm toks hlt hgt htg hne e2 herr =>
      intro e h
      rw [parse_file_loop_cons] at h
      simp only [hlt, Bool.false_eq_true, if_false, hgt, if_true, htg, hne,
        herr, Except.error.injEq] at h
      rw [← h]
      exact parse_tag_token_error_ne cur e2 herr
  | case6 ch rest cur tg cm toks hlt hgt htg hne t htok ih =>
      intro e h
      rw [parse_file_loop_cons] at h
      simp only [hlt, Bool.false_eq_true, if_false, hgt, if_true, htg, hne,
        htok] at h
      exact ih e h
  | case7 ch rest cur tg cm toks hlt hgt htg hne ih =>
      intro e h
      rw [parse_file_loop_cons] at h
      simp only [hlt, Bool.false_eq_true, if_false, hgt, if_true, htg,
        hne] at h
      exact ih e h
  | case8 ch rest cur tg cm toks hlt hgt hpre ih =>
      intro e h
      rw [parse_file_loop_cons] at h
      simp only [hlt, hgt, hpre, if_true, Bool.false_eq_true, if_false] at h
      exact ih e h
  | case9 ch cur tg cm toks hlt hgt rest2 hpre ih =>
      intro e h
      rw [parse_file_loop_cons] at h
      simp only [hlt, hgt, hpre, Bool.false_eq_true, if_false] at h
      exact ih e h
  | case10 ch cur tg cm toks hlt hgt rest3 hx hcm hpre ih =>
      intro e h
      rw [parse_file_loop_cons] at h
      simp only [hlt, hgt, hpre, Bool.false_eq_true, if_false] at h
      split at h
      · exact ih e h
      · rename_i hcmf
        exact absurd hcm hcmf
  | case11 ch cur tg cm toks hlt hgt rest3 hx hcm hpre ih =>
      intro e h
      rw [parse_file_loop_cons] at h
      simp only [hlt, hgt, hpre, Bool.false_eq_true, if_false] at h
      split at h
      · rename_i hcmt
        exact absurd hcmt hcm
      · exact ih e h

/-- C6, counterexample: on the input `< ` the tokenizer loop reaches end of
input with `is_tag` still true and the non-empty accumulator `" "`, yet
`parse_file` succeeds (with no tokens): the end-of-input check only fires
when the accumulator has non-whitespace content. -/
theorem claim_C6_counterexample :
    parse_file_loop "< ".data [] false false [] =
      .ok ([], [' '], true) ∧
    ([' '] : Str) ≠ [] ∧
    parse_file "< ".data = .ok [] := by decide

/-- C6 (amended): `parse_file` fails with the message
``Unexpected end of file. Expected `>` `` exactly when the character loop
completes with `is_tag` true and an accumulator containing non-whitespace
content; in every other situation (including a loop error) this message is
not produced. -/
theorem claim_C6 (s : Str) :
    parse_file s = .error msgUnexpectedEof ↔
      (∃ toks cur, parse_file_loop s [] false false [] = .ok (toks, cur, true) ∧
        allWhitespace cur = false) := by
  constructor
  · intro h
    rw [parse_file] at h
    revert h
    cases hl : parse_file_loop s [] false false [] with
    | error e =>
        intro h
        simp only [Except.error.injEq] at h
        exact absurd (h ▸ rfl : e = msgUnexpectedEof)
          (parse_file_loop_error_ne s [] false false [] e hl)
    | ok res =>
        intro h
        obtain ⟨toks, cur, tg⟩ := res
        dsimp only at h
        by_cases hws : (!allWhitespace cur) = true
        · simp only [hws, if_true] at h
          by_cases htg : tg = true
          · subst htg
            exact ⟨toks, cur, ⟨rfl, by simpa using hws⟩⟩
          · simp [htg] at h
        · simp [hws] at h
  · rintro ⟨toks, cur, hl, hws⟩
    rw [parse_file, hl]
    dsimp only
    simp [hws]

/-- C6 witness: derives the end-of-input failure on `<a` from the amended
equivalence. -/
theorem claim_C6_witness : parse_file "<a".data = .error msgUnexpectedEof :=
  (claim_C6 "<a".data).mpr ⟨[], ['a'], by decide, by decide⟩
